import Mathlib

/-!
A shallow embedding of the reactive-stream core surrounding the `map`
operator of `src/src/internal/operators/map.ts`, together with proofs of
the behavioural properties claimed for it.

The analysed sources contain only `map.ts`.  The subscription machinery it
is built on — `Subscriber`, `Observable`, `lift` and the operator-forwarding
`OperatorSubscriber` — is not part of the sources, so those components are
modelled from the specification (sections 3, 4.1-4.4, 5 and 7 of the
design document); each such definition is marked `Modelled from the spec`.
The `map` operator itself is translated from the source file.

Effectful notions are embedded by explicit state passing: every operation
returns its successor state together with the observable trace of its side
effects (notifications that reached the observer, teardown actions that
were released, invocations of the projection function).  JavaScript
functions that may throw are embedded as `Except`-valued functions.
-/

namespace Rx

/-- The three-member notification protocol: `next`, `error`, `complete`. -/
inductive Note (α ε : Type) where
  | next (v : α)
  | error (e : ε)
  | complete
deriving DecidableEq, Repr

/-- A notification is terminal when it is `error` or `complete`. -/
def Note.isTerminal : Note α ε → Bool
  | Note.next _ => false
  | Note.error _ => true
  | Note.complete => true

/-- Modelled from the spec (§3, §4.1): the mutable state of a `Subscriber`,
a component absent from the analysed sources.  It carries the
closed/stopped flag and the ordered list of registered teardown actions,
identified here by `Nat` tags. -/
structure SubscriberState where
  stopped : Bool
  teardowns : List Nat
deriving DecidableEq, Repr

/-- The state of a freshly created Subscriber: live, no teardowns. -/
def SubscriberState.mk0 : SubscriberState := ⟨false, []⟩

/-- Modelled from the spec (§4.1, §5): external unsubscribe.  Idempotent:
the first call sets the stopped flag and releases the registered teardown
actions in reverse registration order; later calls release nothing.
Returns the new state and the list of teardown ids released. -/
def SubscriberState.unsub (s : SubscriberState) : SubscriberState × List Nat :=
  if s.stopped then (s, []) else (⟨true, []⟩, s.teardowns.reverse)

/-- Modelled from the spec (§4.1): registering a teardown action.  While
live it is appended to the registration list; registering after
termination releases it immediately. -/
def SubscriberState.register (s : SubscriberState) (id : Nat) :
    SubscriberState × List Nat :=
  if s.stopped then (s, [id]) else (⟨s.stopped, s.teardowns ++ [id]⟩, [])

/-- Modelled from the spec (§4.1, §7): delivery of one notification to a
Subscriber wrapping a terminal observer.  The stopped-flag guard makes
every notification method a no-op after termination.  A live `next`
reaches the observer, whose callback may reentrantly dispose the
subscription; this is modelled by the callback `cb`, with `cb v = true`
meaning that the observer disposes upon receiving `v`.  A live `error` or
`complete` reaches the observer, sets the stopped flag and releases the
teardowns in reverse registration order.  Returns the new state, the
notifications that reached the observer, and the teardown ids released. -/
def SubscriberState.notify (s : SubscriberState) (cb : α → Bool) :
    Note α ε → SubscriberState × List (Note α ε) × List Nat
  | Note.next v =>
    if s.stopped then (s, [], [])
    else if cb v then
      let r := SubscriberState.unsub s
      (r.1, [Note.next v], r.2)
    else (s, [Note.next v], [])
  | Note.error e =>
    if s.stopped then (s, [], []) else (⟨true, []⟩, [Note.error e], s.teardowns.reverse)
  | Note.complete =>
    if s.stopped then (s, [], []) else (⟨true, []⟩, [Note.complete], s.teardowns.reverse)

/-- An event arriving at a Subscriber during its lifetime: a producer
notification, an external disposal of the subscription handle, or the
registration of a teardown action. -/
inductive SubEvent (α ε : Type) where
  | notify (n : Note α ε)
  | unsub
  | register (id : Nat)
deriving DecidableEq, Repr

/-- Modelled from the spec (§4.1, §5): processing a finite synchronous
sequence of events through a Subscriber, accumulating in order the
notifications that reached the observer and the teardown ids released. -/
def subRun (cb : α → Bool) (s : SubscriberState) :
    List (SubEvent α ε) → SubscriberState × List (Note α ε) × List Nat
  | [] => (s, [], [])
  | SubEvent.notify n :: es =>
    let r := s.notify cb n
    let k := subRun cb r.1 es
    (k.1, r.2.1 ++ k.2.1, r.2.2 ++ k.2.2)
  | SubEvent.unsub :: es =>
    let r := s.unsub
    let k := subRun cb r.1 es
    (k.1, k.2.1, r.2 ++ k.2.2)
  | SubEvent.register id :: es =>
    let r := s.register id
    let k := subRun cb r.1 es
    (k.1, k.2.1, r.2 ++ k.2.2)

/-- The notifications that reach the observer when a fresh Subscriber
processes the given events. -/
def subTrace (cb : α → Bool) (es : List (SubEvent α ε)) : List (Note α ε) :=
  (subRun cb SubscriberState.mk0 es).2.1

/-- The teardown ids released, in release order, when a fresh Subscriber
processes the given events. -/
def subReleased (cb : α → Bool) (es : List (SubEvent α ε)) : List Nat :=
  (subRun cb SubscriberState.mk0 es).2.2

/-- Modelled from the spec (§4.2, §6): one step of a subscription-setup
function — pushing a notification to the Subscriber it was given, or
throwing synchronously. -/
inductive SetupAction (α ε : Type) where
  | push (n : Note α ε)
  | throwErr (e : ε)
deriving DecidableEq, Repr

/-- Does the setup step throw? -/
def SetupAction.isThrow : SetupAction α ε → Bool
  | SetupAction.push _ => false
  | SetupAction.throwErr _ => true

/-- Modelled from the spec (§3, §4.2): an `Observable` is an inert,
re-subscribable wrapper of a single subscription-setup function, here
represented by the finite synchronous script of actions the setup function
performs on the Subscriber it is handed. -/
structure Observable (α ε : Type) where
  setup : List (SetupAction α ε)

/-- Modelled from the spec (§4.2, §7): executing a setup script against a
live Subscriber.  A synchronous throw aborts the rest of the script; the
subscribe path catches it and routes it to the Subscriber's `error`
channel instead of letting it escape to the caller of `subscribe`. -/
def runSetup (cb : α → Bool) (s : SubscriberState) :
    List (SetupAction α ε) → SubscriberState × List (Note α ε) × List Nat
  | [] => (s, [], [])
  | SetupAction.push n :: as =>
    let r := s.notify cb n
    let k := runSetup cb r.1 as
    (k.1, r.2.1 ++ k.2.1, r.2.2 ++ k.2.2)
  | SetupAction.throwErr e :: _ => s.notify cb (Note.error e)

/-- Modelled from the spec (§4.2): `subscribe` wraps the observer in a
fresh Subscriber and invokes the stored setup function on it; it always
returns normally. -/
def Observable.subscribe (o : Observable α ε) (cb : α → Bool) :
    SubscriberState × List (Note α ε) × List Nat :=
  runSetup cb SubscriberState.mk0 o.setup

/-- The notifications that reach the observer of a subscribe call. -/
def obsTrace (o : Observable α ε) (cb : α → Bool) : List (Note α ε) :=
  (o.subscribe cb).2.1

/-- The per-subscription state of the operator-forwarding Subscriber that
`map` creates (map.ts lines 48-56): its own stopped flag — it is itself a
Subscriber and carries the §4.1 guard — and the source-value index
`index`, created fresh inside each subscription setup (map.ts line 51). -/
structure MapState where
  stopped : Bool
  index : Nat
deriving DecidableEq, Repr

/-- The state of the map operator at subscription time: live, index 0
(map.ts line 51). -/
def MapState.mk0 : MapState := ⟨false, 0⟩

/-- Translated from map.ts lines 52-56 together with the spec of the
operator-forwarding Subscriber it instantiates (§4.4): while not stopped,
on `next(value)` evaluate `project.call(thisArg, value, index++)` — a
JavaScript call that either returns or throws, embedded as an
`Except ε β`-valued function of the context, the value and the index — and
forward the result to the destination via `next`; a throw is caught and
converted into a single `error` to the destination, after which this
Subscriber terminates; `error` and `complete` pass through verbatim and
terminate.  Each invocation of `project` is recorded as a triple
(context, value, index) of the arguments of the call.  Returns the new
state, the notifications forwarded to the destination, and the recorded
invocations. -/
def mapStep (project : θ → α → Nat → Except ε β) (thisArg : θ) (s : MapState) :
    Note α ε → MapState × List (Note β ε) × List (θ × α × Nat)
  | Note.next v =>
    if s.stopped then (s, [], [])
    else
      match project thisArg v s.index with
      | Except.ok r => (⟨false, s.index + 1⟩, [Note.next r], [(thisArg, v, s.index)])
      | Except.error e => (⟨true, s.index + 1⟩, [Note.error e], [(thisArg, v, s.index)])
  | Note.error e =>
    if s.stopped then (s, [], []) else (⟨true, s.index⟩, [Note.error e], [])
  | Note.complete =>
    if s.stopped then (s, [], []) else (⟨true, s.index⟩, [Note.complete], [])

/-- The map operator's intercepting Subscriber processing the finite
sequence of notifications the source attempts to push, accumulating the
forwarded notifications and the recorded projection invocations. -/
def mapRun (project : θ → α → Nat → Except ε β) (thisArg : θ) (s : MapState) :
    List (Note α ε) → MapState × List (Note β ε) × List (θ × α × Nat)
  | [] => (s, [], [])
  | n :: ns =>
    let r := mapStep project thisArg s n
    let k := mapRun project thisArg r.1 ns
    (k.1, r.2.1 ++ k.2.1, r.2.2 ++ k.2.2)

/-- The notifications `map(project, thisArg)` forwards to its destination
Subscriber when the source attempts the given pushes, starting from a
fresh subscription (map.ts lines 48-56). -/
def mapOuts (project : θ → α → Nat → Except ε β) (thisArg : θ)
    (source : List (Note α ε)) : List (Note β ε) :=
  (mapRun project thisArg MapState.mk0 source).2.1

/-- Translated from map.ts lines 46-58 and the spec of `lift` (§4.3): one
subscribe call on the Observable produced by `map(project, thisArg)`
applied to a source.  The destination Subscriber wrapping the observer
`cb` is created fresh, the operator state (stopped flag and index counter)
is created fresh inside the setup invocation, the source is subscribed
through the operator-forwarding Subscriber, and everything the latter
forwards passes through the destination's own stopped-flag guard before
reaching the observer.  Returns the pair of final states, the
notifications that reached the observer, the teardown ids the destination
released, and the recorded projection invocations. -/
def mapSubscribe (project : θ → α → Nat → Except ε β) (thisArg : θ)
    (cb : β → Bool) (source : List (Note α ε)) :
    (MapState × SubscriberState) × List (Note β ε) × List Nat × List (θ × α × Nat) :=
  let m := mapRun project thisArg MapState.mk0 source
  let d := subRun cb SubscriberState.mk0 (m.2.1.map SubEvent.notify)
  ((m.1, d.1), d.2.1, d.2.2, m.2.2)

/-- The notifications that reach the observer of a subscription to
`map(project, thisArg)` over the given source. -/
def mapTrace (project : θ → α → Nat → Except ε β) (thisArg : θ)
    (cb : β → Bool) (source : List (Note α ε)) : List (Note β ε) :=
  (mapSubscribe project thisArg cb source).2.1

/-- The recorded invocations of `project` during a subscription to
`map(project, thisArg)` over the given source. -/
def mapCalls (project : θ → α → Nat → Except ε β) (thisArg : θ)
    (cb : β → Bool) (source : List (Note α ε)) : List (θ × α × Nat) :=
  (mapSubscribe project thisArg cb source).2.2.2

/-- Two independent subscribe calls on the same Observable produced by
`map(project, thisArg)`: per the spec (§4.2, §5) each subscribe call runs
the setup afresh with its own operator closure state; the sources may
deliver different sequences to the two subscriptions. -/
def mapSubscribeTwice (project : θ → α → Nat → Except ε β) (thisArg : θ)
    (cb1 cb2 : β → Bool) (src1 src2 : List (Note α ε)) :
    ((MapState × SubscriberState) × List (Note β ε) × List Nat × List (θ × α × Nat)) ×
    ((MapState × SubscriberState) × List (Note β ε) × List Nat × List (θ × α × Nat)) :=
  (mapSubscribe project thisArg cb1 src1, mapSubscribe project thisArg cb2 src2)

/-- A non-throwing projection, embedded into the possibly-throwing call
form. -/
def pureProj (f : θ → α → Nat → β) : θ → α → Nat → Except ε β :=
  fun t v i => Except.ok (f t v i)

/-- The teardown ids registered by a sequence of events, in registration
order. -/
def registeredIds : List (SubEvent α ε) → List Nat
  | [] => []
  | SubEvent.register id :: es => id :: registeredIds es
  | SubEvent.notify _ :: es => registeredIds es
  | SubEvent.unsub :: es => registeredIds es

theorem subRun_append (cb : α → Bool) (s : SubscriberState)
    (e1 e2 : List (SubEvent α ε)) :
    subRun cb s (e1 ++ e2)
      = ((subRun cb (subRun cb s e1).1 e2).1,
         (subRun cb s e1).2.1 ++ (subRun cb (subRun cb s e1).1 e2).2.1,
         (subRun cb s e1).2.2 ++ (subRun cb (subRun cb s e1).1 e2).2.2) := by
  induction e1 generalizing s with
  | nil => simp [subRun]
  | cons e es ih => cases e <;> simp [subRun, ih, List.append_assoc]

theorem subRun_stopped (cb : α → Bool) (s : SubscriberState)
    (h : s.stopped = true) (es : List (SubEvent α ε)) :
    subRun cb s es = (s, [], registeredIds es) := by
  induction es with
  | nil => simp [subRun, registeredIds]
  | cons e es ih =>
    cases e with
    | notify n =>
      cases n <;>
        simp [subRun, registeredIds, SubscriberState.notify, h, ih]
    | unsub => simp [subRun, registeredIds, SubscriberState.unsub, h, ih]
    | register id => simp [subRun, registeredIds, SubscriberState.register, h, ih]

theorem unsub_stopped (s : SubscriberState) : (s.unsub).1.stopped = true := by
  by_cases h : s.stopped = true <;> simp [SubscriberState.unsub, h]

theorem notify_error_stopped (cb : α → Bool) (s : SubscriberState) (e : ε) :
    ((s.notify cb (Note.error e)).1).stopped = true := by
  by_cases h : s.stopped = true <;> simp [SubscriberState.notify, h]

theorem notify_complete_stopped (cb : α → Bool) (s : SubscriberState) :
    ((s.notify cb (Note.complete : Note α ε)).1).stopped = true := by
  by_cases h : s.stopped = true <;> simp [SubscriberState.notify, h]

theorem notify_next_disposing_stopped (cb : α → Bool) (s : SubscriberState)
    (v : α) (h : cb v = true) :
    ((s.notify cb (Note.next v) : SubscriberState × List (Note α ε) × List Nat)).1.stopped = true := by
  by_cases hs : s.stopped = true <;>
    simp [SubscriberState.notify, SubscriberState.unsub, hs, h]

theorem mapRun_stopped (project : θ → α → Nat → Except ε β) (t : θ) (s : MapState)
    (h : s.stopped = true) (ns : List (Note α ε)) :
    mapRun project t s ns = (s, [], []) := by
  induction ns with
  | nil => simp [mapRun]
  | cons n ns ih => cases n <;> simp [mapRun, mapStep, h, ih]

theorem mapRun_append (project : θ → α → Nat → Except ε β) (t : θ) (s : MapState)
    (n1 n2 : List (Note α ε)) :
    mapRun project t s (n1 ++ n2)
      = ((mapRun project t (mapRun project t s n1).1 n2).1,
         (mapRun project t s n1).2.1 ++ (mapRun project t (mapRun project t s n1).1 n2).2.1,
         (mapRun project t s n1).2.2 ++ (mapRun project t (mapRun project t s n1).1 n2).2.2) := by
  induction n1 generalizing s with
  | nil => simp [mapRun]
  | cons n ns ih => simp [mapRun, ih, List.append_assoc]

theorem mapRun_ok (project : θ → α → Nat → Except ε β) (t : θ) (g : Nat → α → β)
    (us : List α) (j : Nat)
    (h : ∀ i v, us.get? i = some v → project t v (j + i) = Except.ok (g (j + i) v)) :
    mapRun project t ⟨false, j⟩ (us.map Note.next)
      = (⟨false, j + us.length⟩,
         (us.enumFrom j).map (fun p => Note.next (g p.1 p.2)),
         (us.enumFrom j).map (fun p => (t, p.2, p.1))) := by
  induction us generalizing j with
  | nil => simp [mapRun, List.enumFrom]
  | cons u us ih =>
    have h0 : project t u j = Except.ok (g j u) := by
      have hu := h 0 u (by simp)
      simpa using hu
    have hrec := ih (j + 1) (by
      intro i v hv
      have hv1 := h (i + 1) v (by simpa using hv)
      have e : j + (i + 1) = (j + 1) + i := by omega
      rw [e] at hv1
      exact hv1)
    simp [mapRun, mapStep, h0, hrec, MapState.mk.injEq]
    omega

theorem mapStep_calls_context (project : θ → α → Nat → Except ε β) (t : θ)
    (s : MapState) (n : Note α ε) :
    ∀ c ∈ (mapStep project t s n).2.2, c.1 = t := by
  cases n with
  | next v =>
    by_cases hs : s.stopped = true
    · simp [mapStep, hs]
    · cases hp : project t v s.index <;> simp [mapStep, hs, hp]
  | error e => by_cases hs : s.stopped = true <;> simp [mapStep, hs]
  | complete => by_cases hs : s.stopped = true <;> simp [mapStep, hs]

theorem mapRun_calls_context (project : θ → α → Nat → Except ε β) (t : θ)
    (ns : List (Note α ε)) (s : MapState) :
    ∀ c ∈ (mapRun project t s ns).2.2, c.1 = t := by
  induction ns generalizing s with
  | nil => simp [mapRun]
  | cons n ns ih =>
    intro c hc
    rw [mapRun] at hc
    rcases List.mem_append.mp hc with hc | hc
    · exact mapStep_calls_context project t s n c hc
    · exact ih _ c hc

theorem subRun_registers (cb : α → Bool) (td ids : List Nat) :
    subRun cb ⟨false, td⟩ ((ids.map SubEvent.register) : List (SubEvent α ε))
      = (⟨false, td ++ ids⟩, [], []) := by
  induction ids generalizing td with
  | nil => simp [subRun]
  | cons id ids ih => simp [subRun, SubscriberState.register, ih, List.append_assoc]

theorem registeredIds_registers_append (post : List Nat) (es : List (SubEvent α ε)) :
    registeredIds ((post.map SubEvent.register) ++ es) = post ++ registeredIds es := by
  induction post with
  | nil => simp [registeredIds]
  | cons p ps ih => simp [registeredIds, ih]

theorem subRun_passive_no_terminal (td : List Nat) (ns : List (Note α ε))
    (h : ns.all (fun n => !n.isTerminal) = true) :
    subRun (fun _ => false) ⟨false, td⟩ (ns.map SubEvent.notify)
      = (⟨false, td⟩, ns, []) := by
  induction ns with
  | nil => simp [subRun]
  | cons n ns ih =>
    cases n with
    | next v =>
      have hrest : ns.all (fun n => !n.isTerminal) = true := by
        simp only [List.all_cons, Bool.and_eq_true] at h
        exact h.2
      simp [subRun, SubscriberState.notify, ih hrest]
    | error e => simp [Note.isTerminal, List.all_cons] at h
    | complete => simp [Note.isTerminal, List.all_cons] at h

theorem runSetup_append_no_throw (cb : α → Bool) (s : SubscriberState)
    (a1 a2 : List (SetupAction α ε)) (h : a1.all (fun a => !a.isThrow) = true) :
    runSetup cb s (a1 ++ a2)
      = ((runSetup cb (runSetup cb s a1).1 a2).1,
         (runSetup cb s a1).2.1 ++ (runSetup cb (runSetup cb s a1).1 a2).2.1,
         (runSetup cb s a1).2.2 ++ (runSetup cb (runSetup cb s a1).1 a2).2.2) := by
  induction a1 generalizing s with
  | nil => simp [runSetup]
  | cons a as ih =>
    cases a with
    | push n =>
      have hrest : as.all (fun a => !a.isThrow) = true := by
        simp only [List.all_cons, Bool.and_eq_true] at h
        exact h.2
      simp [runSetup, ih _ hrest, List.append_assoc]
    | throwErr e => simp [SetupAction.isThrow, List.all_cons] at h

theorem dropLast_cons_all {γ : Type} {p : γ → Bool} (x : γ) (l : List γ)
    (hx : p x = true) (hl : l.dropLast.all p = true) :
    (x :: l).dropLast.all p = true := by
  cases l with
  | nil => simp
  | cons y ys =>
    rw [List.dropLast_cons₂]
    simp [List.all_cons, hx]
    simpa using hl

theorem filter_length_le_one_of_dropLast {γ : Type} {p : γ → Bool} :
    ∀ l : List γ, l.dropLast.all (fun x => !p x) = true → (l.filter p).length ≤ 1 := by
  intro l
  induction l with
  | nil => simp
  | cons x xs ih =>
    intro h
    cases xs with
    | nil => by_cases hp : p x <;> simp [List.filter_cons, hp]
    | cons y ys =>
      rw [List.dropLast_cons₂] at h
      simp [List.all_cons] at h
      obtain ⟨hx, hrest⟩ := h
      rw [List.filter_cons_of_neg (by simp [hx])]
      exact ih (by simpa using hrest)

theorem subRun_trace_dropLast (cb : α → Bool) (s : SubscriberState)
    (es : List (SubEvent α ε)) :
    ((subRun cb s es).2.1).dropLast.all (fun n => !n.isTerminal) = true := by
  induction es generalizing s with
  | nil => simp [subRun]
  | cons e es ih =>
    cases e with
    | notify n =>
      by_cases hs : s.stopped = true
      · cases n <;> simp [subRun, SubscriberState.notify, hs] <;> simpa using ih s
      · cases n with
        | next v =>
          by_cases hv : cb v = true
          · have hstop := subRun_stopped cb (⟨true, []⟩ : SubscriberState) rfl es
            simp [subRun, SubscriberState.notify, SubscriberState.unsub, hs, hv, hstop]
          · simp only [subRun, SubscriberState.notify, hs, hv]
            simp only [Bool.false_eq_true, if_false, if_neg hv]
            exact dropLast_cons_all _ _ (by simp [Note.isTerminal]) (ih s)
        | error e =>
          have hstop := subRun_stopped cb (⟨true, []⟩ : SubscriberState) rfl es
          simp [subRun, SubscriberState.notify, hs, hstop]
        | complete =>
          have hstop := subRun_stopped cb (⟨true, []⟩ : SubscriberState) rfl es
          simp [subRun, SubscriberState.notify, hs, hstop]
    | unsub => by_cases hs : s.stopped = true <;>
        simp [subRun, SubscriberState.unsub, hs] <;> simpa using ih _
    | register id => by_cases hs : s.stopped = true <;>
        simp [subRun, SubscriberState.register, hs] <;> simpa using ih _

theorem subTrace_cut (cb : α → Bool) (x : SubEvent α ε)
    (hx : ∀ s : SubscriberState, ((subRun cb s [x]).1).stopped = true)
    (e1 e2 : List (SubEvent α ε)) :
    subTrace cb (e1 ++ x :: e2) = subTrace cb (e1 ++ [x]) := by
  have hsplit : e1 ++ x :: e2 = (e1 ++ [x]) ++ e2 := by simp
  have hstop : ((subRun cb SubscriberState.mk0 (e1 ++ [x])).1).stopped = true := by
    rw [subRun_append]
    exact hx _
  rw [subTrace, subTrace, hsplit, subRun_append, subRun_stopped cb _ hstop]
  simp

theorem subRun_single_unsub_stopped (cb : α → Bool) (s : SubscriberState) :
    ((subRun cb s ([SubEvent.unsub] : List (SubEvent α ε))).1).stopped = true := by
  simp only [subRun]
  exact unsub_stopped s

theorem subRun_single_error_stopped (cb : α → Bool) (s : SubscriberState) (e : ε) :
    ((subRun cb s [SubEvent.notify (Note.error e)]).1).stopped = true := by
  simp only [subRun]
  exact notify_error_stopped cb s e

theorem subRun_single_complete_stopped (cb : α → Bool) (s : SubscriberState) :
    ((subRun cb s [SubEvent.notify (Note.complete : Note α ε)]).1).stopped = true := by
  simp only [subRun]
  exact notify_complete_stopped cb s

theorem subRun_single_disposing_next_stopped (cb : α → Bool) (s : SubscriberState)
    (v : α) (hv : cb v = true) :
    ((subRun cb s ([SubEvent.notify (Note.next v)] : List (SubEvent α ε))).1).stopped = true := by
  simp only [subRun]
  exact notify_next_disposing_stopped cb s v hv

/-- C2: for every Subscriber and every sequence of events, at most one of
`error`/`complete` is ever delivered to the observer, and whichever
terminal notification is delivered is the last one received; moreover the
first `error`, the first `complete`, or any external unsubscribe stops the
Subscriber, after which all further events have no effect on the delivered
trace — even a producer that calls the terminal methods multiple times. -/
theorem subscriber_terminal_exactly_once
    (cb : α → Bool) (e1 e2 : List (SubEvent α ε)) (e : ε) :
    ((subTrace cb e1).dropLast.all fun n => !n.isTerminal) = true ∧
    ((subTrace cb e1).filter Note.isTerminal).length ≤ 1 ∧
    subTrace cb (e1 ++ SubEvent.notify (Note.error e) :: e2)
      = subTrace cb (e1 ++ [SubEvent.notify (Note.error e)]) ∧
    subTrace cb (e1 ++ SubEvent.notify (Note.complete : Note α ε) :: e2)
      = subTrace cb (e1 ++ [SubEvent.notify Note.complete]) ∧
    subTrace cb (e1 ++ SubEvent.unsub :: e2)
      = subTrace cb (e1 ++ [SubEvent.unsub]) := by
  refine ⟨subRun_trace_dropLast cb _ e1,
    filter_length_le_one_of_dropLast _ (by simpa [Note.isTerminal] using subRun_trace_dropLast cb SubscriberState.mk0 e1),
    subTrace_cut cb _ (fun s => subRun_single_error_stopped cb s e) e1 e2,
    subTrace_cut cb _ (fun s => subRun_single_complete_stopped cb s) e1 e2,
    subTrace_cut cb _ (fun s => subRun_single_unsub_stopped cb s) e1 e2⟩

/-- C4: once the subscription handle has been disposed — externally, or
reentrantly from within the observer's own `next` callback — no subsequent
`next`, `error` or `complete` notification ever reaches the observer, no
matter what the producer attempts afterwards; the attempts are silently
dropped. -/
theorem disposal_silences_observer
    (cb : α → Bool) (e1 e2 : List (SubEvent α ε)) (v : α) :
    subTrace cb (e1 ++ SubEvent.unsub :: e2) = subTrace cb (e1 ++ [SubEvent.unsub]) ∧
    (cb v = true →
      subTrace cb (e1 ++ SubEvent.notify (Note.next v) :: e2)
        = subTrace cb (e1 ++ [SubEvent.notify (Note.next v)])) :=
  ⟨subTrace_cut cb _ (fun s => subRun_single_unsub_stopped cb s) e1 e2,
   fun hv => subTrace_cut cb _
     (fun s => subRun_single_disposing_next_stopped cb s v hv) e1 e2⟩

/-- Witness for C4 at a concrete input: the observer disposes upon every
value, so everything the producer pushes after the delivery of `2` is
dropped. -/
theorem disposal_silences_observer_witness :
    subTrace (fun _ : Nat => true)
        (([SubEvent.notify (Note.next (1 : Nat))] : List (SubEvent Nat Nat)) ++
          SubEvent.notify (Note.next 2) :: [SubEvent.notify (Note.next 3)])
      = subTrace (fun _ : Nat => true)
          ([SubEvent.notify (Note.next 1)] ++ [SubEvent.notify (Note.next 2)]) :=
  (disposal_silences_observer (fun _ => true) _ _ 2).2 rfl

/-- C6: the teardown actions registered on a Subscriber are released
exactly once, in reverse registration order, when the Subscriber
terminates — by external disposal, by `error` or by `complete` — an
action registered after termination is released immediately, and a later
disposal releases nothing again. -/
theorem teardown_reverse_exactly_once (cb : α → Bool) (ids post : List Nat)
    (t : SubEvent α ε)
    (ht : t = SubEvent.unsub ∨ (∃ e, t = SubEvent.notify (Note.error e)) ∨
          t = SubEvent.notify Note.complete) :
    subReleased cb ((ids.map SubEvent.register) ++ t ::
        ((post.map SubEvent.register) ++ [SubEvent.unsub]))
      = ids.reverse ++ post := by
  have htail : registeredIds
      (((post.map SubEvent.register) ++ [SubEvent.unsub]) : List (SubEvent α ε)) = post := by
    rw [registeredIds_registers_append]
    simp [registeredIds]
  have h1 : subRun cb SubscriberState.mk0 ((ids.map SubEvent.register) : List (SubEvent α ε))
      = (⟨false, ids⟩, [], []) := by
    calc subRun cb SubscriberState.mk0 ((ids.map SubEvent.register) : List (SubEvent α ε))
        = (⟨false, [] ++ ids⟩, [], []) := subRun_registers cb [] ids
      _ = (⟨false, ids⟩, [], []) := by simp
  rw [subReleased, subRun_append, h1]
  rcases ht with h | ⟨e, h⟩ | h <;> subst h <;>
    simp [subRun, SubscriberState.unsub, SubscriberState.notify,
      subRun_stopped cb (⟨true, []⟩ : SubscriberState) rfl, htail]

/-- Witness for C6 at a concrete input: teardowns 1 and 2 are released in
reverse order by the disposal, the post-termination registration 3 is
released immediately, and the trailing second disposal releases nothing. -/
theorem teardown_reverse_exactly_once_witness :
    subReleased (fun _ : Nat => false)
        ((([1, 2] : List Nat).map SubEvent.register) ++
          (SubEvent.unsub : SubEvent Nat Nat) ::
            ((([3] : List Nat).map SubEvent.register) ++ [SubEvent.unsub]))
      = [2, 1, 3] := by
  have h := teardown_reverse_exactly_once (fun _ : Nat => false) [1, 2] [3]
      (SubEvent.unsub : SubEvent Nat Nat) (Or.inl rfl)
  simpa using h

/-- C8: if the stored subscription-setup function throws synchronously
partway through a subscribe call, the thrown condition is delivered as an
`error` notification to the destination Subscriber — after exactly the
notifications the setup had already pushed — and the actions following the
throw never run; `subscribe` itself returns normally, so nothing is raised
to its caller. -/
theorem setup_throw_caught (cb : α → Bool) (pre rest : List (SetupAction α ε)) (e : ε)
    (h1 : pre.all (fun a => !a.isThrow) = true)
    (h2 : ((runSetup cb SubscriberState.mk0 pre).1).stopped = false) :
    obsTrace (Observable.mk (pre ++ SetupAction.throwErr e :: rest)) cb
      = (runSetup cb SubscriberState.mk0 pre).2.1 ++ [Note.error e] := by
  rw [obsTrace, Observable.subscribe, runSetup_append_no_throw cb _ _ _ h1]
  simp [runSetup, SubscriberState.notify, h2]

/-- Witness for C8 at a concrete input: the setup pushes `1`, then throws
`7`; the observer sees `next 1` followed by `error 7`, and the push of `2`
after the throw never happens. -/
theorem setup_throw_caught_witness :
    obsTrace (Observable.mk
        (([SetupAction.push (Note.next (1 : Nat))] : List (SetupAction Nat Nat)) ++
          SetupAction.throwErr 7 :: [SetupAction.push (Note.next 2)]))
        (fun _ => false)
      = (runSetup (fun _ => false) SubscriberState.mk0
          ([SetupAction.push (Note.next (1 : Nat))] : List (SetupAction Nat Nat))).2.1
          ++ [Note.error 7] :=
  setup_throw_caught (fun _ => false) [SetupAction.push (Note.next 1)]
    [SetupAction.push (Note.next 2)] 7 (by decide) (by decide)

theorem mapOuts_nexts (f : θ → α → Nat → β) (t : θ) (vs : List α) :
    mapOuts ((pureProj f) : θ → α → Nat → Except ε β) t (vs.map Note.next)
      = vs.enum.map (fun p => Note.next (f t p.2 p.1)) := by
  have h := mapRun_ok ((pureProj f) : θ → α → Nat → Except ε β) t
      (fun i v => f t v i) vs 0 (by intro i v hv; simp [pureProj])
  show (mapRun ((pureProj f) : θ → α → Nat → Except ε β) t
      ⟨false, 0⟩ (vs.map Note.next)).2.1 = _
  rw [h]
  simp [List.enum]

theorem mapCalls_nexts (f : θ → α → Nat → β) (t : θ) (cb : β → Bool) (vs : List α) :
    mapCalls ((pureProj f) : θ → α → Nat → Except ε β) t cb (vs.map Note.next)
      = vs.enum.map (fun p => (t, p.2, p.1)) := by
  have h := mapRun_ok ((pureProj f) : θ → α → Nat → Except ε β) t
      (fun i v => f t v i) vs 0 (by intro i v hv; simp [pureProj])
  show (mapRun ((pureProj f) : θ → α → Nat → Except ε β) t
      ⟨false, 0⟩ (vs.map Note.next)).2.2 = _
  rw [h]
  simp [List.enum]

/-- C1: for every finite sequence of values the source delivers to a
subscription of `map(f)`, the values forwarded downstream via `next` are
exactly `f(v1,0), …, f(vn,n-1)`, in order, nothing dropped or duplicated,
and the index argument passed to `f` starts at 0 and increments by exactly
1 per source value. -/
theorem map_projects_every_value_in_order (f : θ → α → Nat → β) (t : θ)
    (cb : β → Bool) (vs : List α) :
    mapOuts ((pureProj f) : θ → α → Nat → Except ε β) t (vs.map Note.next)
      = vs.enum.map (fun p => Note.next (f t p.2 p.1)) ∧
    mapCalls ((pureProj f) : θ → α → Nat → Except ε β) t cb (vs.map Note.next)
      = vs.enum.map (fun p => (t, p.2, p.1)) :=
  ⟨mapOuts_nexts f t vs, mapCalls_nexts f t cb vs⟩

/-- C5: two subscribe calls on the same Observable composed with `map`
each get a fresh index counter starting at 0: the projection invocations
of each subscription enumerate that subscription's own values from index
0, unaffected by what the other subscription delivers. -/
theorem map_fresh_index_per_subscription (f : θ → α → Nat → β) (t : θ)
    (cb1 cb2 : β → Bool) (vs1 vs2 : List α) :
    ((mapSubscribeTwice ((pureProj f) : θ → α → Nat → Except ε β) t cb1 cb2
        (vs1.map Note.next) (vs2.map Note.next)).1).2.2.2
      = vs1.enum.map (fun p => (t, p.2, p.1)) ∧
    ((mapSubscribeTwice ((pureProj f) : θ → α → Nat → Except ε β) t cb1 cb2
        (vs1.map Note.next) (vs2.map Note.next)).2).2.2.2
      = vs2.enum.map (fun p => (t, p.2, p.1)) :=
  ⟨mapCalls_nexts f t cb1 vs1, mapCalls_nexts f t cb2 vs2⟩

/-- C7: the `error` and `complete` notifications of the source pass
through `map(f)` to the destination Subscriber verbatim: an upstream
`error e` yields exactly `error e` downstream, an upstream `complete`
yields exactly `complete`, with no transformation applied. -/
theorem map_terminal_passthrough (f : θ → α → Nat → β) (t : θ) (vs : List α) (e : ε) :
    mapOuts ((pureProj f) : θ → α → Nat → Except ε β) t
        (vs.map Note.next ++ [Note.error e])
      = vs.enum.map (fun p => Note.next (f t p.2 p.1)) ++ [Note.error e] ∧
    mapOuts ((pureProj f) : θ → α → Nat → Except ε β) t
        (vs.map Note.next ++ [(Note.complete : Note α ε)])
      = vs.enum.map (fun p => Note.next (f t p.2 p.1)) ++ [Note.complete] := by
  have h := mapRun_ok ((pureProj f) : θ → α → Nat → Except ε β) t
      (fun i v => f t v i) vs 0 (by intro i v hv; simp [pureProj])
  constructor
  · show (mapRun ((pureProj f) : θ → α → Nat → Except ε β) t
        ⟨false, 0⟩ (vs.map Note.next ++ [Note.error e])).2.1 = _
    rw [mapRun_append, h]
    simp [mapRun, mapStep, List.enum]
  · show (mapRun ((pureProj f) : θ → α → Nat → Except ε β) t
        ⟨false, 0⟩ (vs.map Note.next ++ [Note.complete])).2.1 = _
    rw [mapRun_append, h]
    simp [mapRun, mapStep, List.enum]

/-- C9: every invocation of `project` during a subscription to
`map(project, thisArg)` is made with `thisArg` as its call-binding
context, whatever the source attempts and even when `project` throws; and
the two value arguments it receives are exactly the source value and the
current index, enumerating the delivered values from 0. -/
theorem map_thisArg_binding [DecidableEq θ] (project : θ → α → Nat → Except ε β)
    (t : θ) (cb : β → Bool) (src : List (Note α ε)) (f : θ → α → Nat → β)
    (vs : List α) :
    ((mapCalls project t cb src).all fun c => decide (c.1 = t)) = true ∧
    mapCalls ((pureProj f) : θ → α → Nat → Except ε β) t cb (vs.map Note.next)
      = vs.enum.map (fun p => (t, p.2, p.1)) := by
  constructor
  · rw [List.all_eq_true]
    intro c hc
    simp only [decide_eq_true_eq]
    exact mapRun_calls_context project t src MapState.mk0 c hc
  · exact mapCalls_nexts f t cb vs

/-- Witness for C9 at a concrete input: with `thisArg = 5` every recorded
projection invocation carries context 5, even across an interleaved
upstream error, and a pure-next source is enumerated from index 0. -/
theorem map_thisArg_binding_witness :
    ((mapCalls (fun (t : Nat) (v : Nat) (_ : Nat) => (Except.ok (v + t) : Except Nat Nat))
        5 (fun _ => false) ([Note.next 3, Note.error 9, Note.next 4] : List (Note Nat Nat))).all
      fun c => decide (c.1 = 5)) = true ∧
    mapCalls ((pureProj fun (t : Nat) (v : Nat) (_ : Nat) => v + t) :
        Nat → Nat → Nat → Except Nat Nat)
        5 (fun _ => false) (([3, 4] : List Nat).map Note.next)
      = ([3, 4] : List Nat).enum.map (fun p => (5, p.2, p.1)) :=
  map_thisArg_binding (fun t v _ => Except.ok (v + t)) 5 (fun _ => false)
    [Note.next 3, Note.error 9, Note.next 4] (fun t v _ => v + t) [3, 4]

theorem subTrace_passive_nexts_then_error (ws : List β) (e : ε) :
    subTrace (fun _ => false)
        (((ws.map Note.next ++ [Note.error e]).map SubEvent.notify) : List (SubEvent β ε))
      = ws.map Note.next ++ [Note.error e] := by
  rw [subTrace, List.map_append, subRun_append]
  have h1 : subRun (fun _ => false) SubscriberState.mk0
      (((ws.map Note.next).map SubEvent.notify) : List (SubEvent β ε))
      = (⟨false, []⟩, ws.map Note.next, []) :=
    subRun_passive_no_terminal [] (ws.map Note.next) (by simp [Note.isTerminal])
  rw [h1]
  simp [subRun, SubscriberState.notify]

/-- C3: if `project` throws synchronously on the k-th source value, the
downstream observer receives exactly the first k-1 transformed values via
`next`, followed by exactly one `error` carrying the thrown condition; no
further `next` is delivered on that subscription whatever the source
pushes afterwards, and the subscribe call itself returns normally. -/
theorem map_throw_converts_to_error (project : θ → α → Nat → Except ε β) (t : θ)
    (g : Nat → α → β) (us : List α) (w : α) (rest : List α) (e : ε)
    (h1 : ∀ i v, us.get? i = some v → project t v i = Except.ok (g i v))
    (h2 : project t w us.length = Except.error e) :
    mapTrace project t (fun _ => false) ((us ++ w :: rest).map Note.next)
      = us.enum.map (fun p => Note.next (g p.1 p.2)) ++ [Note.error e] := by
  have hok := mapRun_ok project t (fun i v => g i v) us 0 (by
    intro i v hv
    simpa using h1 i v hv)
  have houts : (mapRun project t ⟨false, 0⟩
        (((us ++ w :: rest).map Note.next) : List (Note α ε))).2.1
      = (us.enumFrom 0).map (fun p => Note.next (g p.1 p.2)) ++ [Note.error e] := by
    rw [List.map_append, mapRun_append, hok]
    simp [mapRun, mapStep, h2, mapRun_stopped]
  show subTrace (fun _ => false)
      (((mapRun project t ⟨false, 0⟩ ((us ++ w :: rest).map Note.next)).2.1).map
        SubEvent.notify) = _
  rw [houts]
  have hfin := subTrace_passive_nexts_then_error
      ((((us.enumFrom 0).map fun p => g p.1 p.2) : List β)) e
  simp only [List.map_map, Function.comp_def] at hfin
  rw [hfin]
  rfl

/-- Witness for C3 at a concrete input: the projection multiplies by 10
but throws `7` on the value `4`; the source pushes `3, 4, 5`, and the
observer sees `next 30` then `error 7` and nothing else. -/
theorem map_throw_converts_to_error_witness :
    mapTrace (fun (_ : Nat) (v : Nat) (_ : Nat) =>
        if v = 4 then (Except.error 7 : Except Nat Nat) else Except.ok (v * 10))
        0 (fun _ => false) (([3, 4, 5] : List Nat).map Note.next)
      = [Note.next 30, Note.error 7] := by
  have h := map_throw_converts_to_error
      (fun (_ : Nat) (v : Nat) (_ : Nat) =>
        if v = 4 then (Except.error 7 : Except Nat Nat) else Except.ok (v * 10))
      0 (fun _ v => v * 10) [3] 4 [5] 7
      (by
        intro i v hv
        cases i with
        | zero =>
          simp at hv
          subst hv
          rfl
        | succ i => simp at hv)
      (by rfl)
  simpa [List.enum] using h

theorem mapRun_comp (g : α → Nat → β) (f : β → Nat → γ)
    (src : List (Note α ε)) : ∀ (b : Bool) (j : Nat),
    (mapRun ((pureProj fun _ v i => f v i) : Unit → β → Nat → Except ε γ) ()
        ⟨b, j⟩ ((mapRun ((pureProj fun _ v i => g v i) : Unit → α → Nat → Except ε β) ()
          ⟨b, j⟩ src).2.1)).2.1
      = (mapRun ((pureProj fun _ v i => f (g v i) i) : Unit → α → Nat → Except ε γ) ()
          ⟨b, j⟩ src).2.1 := by
  induction src with
  | nil => intro b j; simp [mapRun]
  | cons n ns ih =>
    intro b j
    cases b with
    | true => cases n <;> simp [mapRun, mapStep, mapRun_stopped]
    | false =>
      cases n with
      | next v => simp [mapRun, mapStep, pureProj, ih false (j + 1)]
      | error e => simp [mapRun, mapStep, mapRun_stopped]
      | complete => simp [mapRun, mapStep, mapRun_stopped]

theorem mapId_observer_trace (cb : α → Bool) (src : List (Note α ε)) :
    ∀ (j : Nat) (d : SubscriberState),
    (subRun cb d (((mapRun ((pureProj fun _ v _ => v) : Unit → α → Nat → Except ε α) ()
        ⟨false, j⟩ src).2.1).map SubEvent.notify)).2.1
      = (subRun cb d (src.map SubEvent.notify)).2.1 := by
  induction src with
  | nil => intro j d; simp [mapRun]
  | cons n ns ih =>
    intro j d
    cases n with
    | next v => simp [mapRun, mapStep, pureProj, subRun, ih (j + 1)]
    | error e =>
      have hstop := notify_error_stopped cb d e
      simp [mapRun, mapStep, subRun, mapRun_stopped, subRun_stopped cb _ hstop]
    | complete =>
      have hstop : ((d.notify cb (Note.complete : Note α ε)).1).stopped = true :=
        notify_complete_stopped cb d
      simp [mapRun, mapStep, subRun, mapRun_stopped, subRun_stopped cb _ hstop]

/-- C10: composing `map(g)` then `map(f)` delivers to the observer exactly
the notification sequence of the single operator
`map((v, i) => f(g(v, i), i))`, for every source — even one that violates
protocol; and `map(v => v)` delivers exactly the notification sequence the
observer would receive from the source directly. -/
theorem map_fusion_and_identity (g : α → Nat → β) (f : β → Nat → γ)
    (cbf : γ → Bool) (cbi : α → Bool) (src : List (Note α ε)) :
    mapTrace ((pureProj fun _ v i => f v i) : Unit → β → Nat → Except ε γ) () cbf
        (mapOuts ((pureProj fun _ v i => g v i) : Unit → α → Nat → Except ε β) () src)
      = mapTrace ((pureProj fun _ v i => f (g v i) i) : Unit → α → Nat → Except ε γ)
          () cbf src ∧
    mapTrace ((pureProj fun _ v _ => v) : Unit → α → Nat → Except ε α) () cbi src
      = subTrace cbi (src.map SubEvent.notify) := by
  constructor
  · have hcomp : mapOuts ((pureProj fun _ v i => f v i) : Unit → β → Nat → Except ε γ) ()
        (mapOuts ((pureProj fun _ v i => g v i) : Unit → α → Nat → Except ε β) () src)
      = mapOuts ((pureProj fun _ v i => f (g v i) i) : Unit → α → Nat → Except ε γ) () src :=
      mapRun_comp g f src false 0
    show subTrace cbf
        ((mapOuts ((pureProj fun _ v i => f v i) : Unit → β → Nat → Except ε γ) ()
          (mapOuts ((pureProj fun _ v i => g v i) : Unit → α → Nat → Except ε β) ()
            src)).map SubEvent.notify)
      = subTrace cbf
          ((mapOuts ((pureProj fun _ v i => f (g v i) i) : Unit → α → Nat → Except ε γ)
            () src).map SubEvent.notify)
    rw [hcomp]
  · exact mapId_observer_trace cbi src 0 SubscriberState.mk0

end Rx
